import Mathlib

/-!
Shallow embedding of the `walker` Go package (Ranger traversal engine,
Entry, FilterFunc combinators, ErrorPolicy) together with a model of the
external depth-first walk driver `fs.WalkDir` that the engine adapts.
Definitions mirror the Go source (`ranger.go`, `entry.go`, `filters.go`,
`errorpolicy.go`); the `fs.WalkDir` driver is modelled from its documented
semantics (pre-order visit, second callback on ReadDir failure, and the
`SkipDir` / `SkipAll` dispositions).
-/

namespace Walker

/-- Models Go `strings.ToLower` restricted to ASCII input: upper-case ASCII
letters map to the corresponding lower-case letters; every other character
is unchanged. -/
def asciiLowerChar (c : Char) : Char :=
  match c with
  | 'A' => 'a' | 'B' => 'b' | 'C' => 'c' | 'D' => 'd' | 'E' => 'e'
  | 'F' => 'f' | 'G' => 'g' | 'H' => 'h' | 'I' => 'i' | 'J' => 'j'
  | 'K' => 'k' | 'L' => 'l' | 'M' => 'm' | 'N' => 'n' | 'O' => 'o'
  | 'P' => 'p' | 'Q' => 'q' | 'R' => 'r' | 'S' => 's' | 'T' => 't'
  | 'U' => 'u' | 'V' => 'v' | 'W' => 'w' | 'X' => 'x' | 'Y' => 'y'
  | 'Z' => 'z' | c => c

/-- Models Go `strings.ToLower` (ASCII fragment), character by character. -/
def goToLower (s : String) : String := ⟨s.data.map asciiLowerChar⟩

/-- Models Go `strings.HasPrefix(s, pre)`. -/
def goHasPrefix (s pre : String) : Bool := pre.data.isPrefixOf s.data

/-- Helper for `pathExt`: walks the reversed character list of a path,
accumulating the characters seen so far (in original order); stops with the
extension when a dot is found, or with no extension at a slash or the start
of the string. Mirrors the backwards loop of Go `path.Ext`. -/
def pathExtAux : List Char → List Char → List Char
  | [], _ => []
  | c :: rest, acc =>
    if c = '/' then []
    else if c = '.' then c :: acc
    else pathExtAux rest (c :: acc)

/-- Models Go `path.Ext`: the suffix beginning at the final dot in the final
slash-separated element of the path; empty if there is no dot. -/
def pathExt (p : String) : String := ⟨pathExtAux p.data.reverse []⟩

/-- Models Go `filepath.Ext` on a Unix platform, where the path separator is
the slash, so it agrees with `path.Ext`. -/
def filepathExt : String → String := pathExt

/-- Models Go `path.Base`: the last element of the path after stripping
trailing slashes; `"."` for the empty path and `"/"` for all-slash paths. -/
def pathBase (p : String) : String :=
  if p = "" then "."
  else
    let rev := p.data.reverse.dropWhile (fun c => c = '/')
    let baseRev := rev.takeWhile (fun c => c ≠ '/')
    if baseRev = [] then "/" else ⟨baseRev.reverse⟩

/-- Models Go `filepath.Base` on a Unix platform, where it agrees with
`path.Base`. -/
def filepathBase : String → String := pathBase

/-- Models the traversal-time error values routed through an ErrorPolicy.
`errors.Is(err, fs.ErrPermission)` holds exactly for `permissionDenied`. -/
inductive GoErr where
  | permissionDenied : GoErr
  | ioError : GoErr
deriving DecidableEq, Repr

/-- Models the part of `fs.DirEntry` the engine consults: whether the
visited node is a directory. -/
structure DirEntryInfo where
  isDir : Bool
deriving DecidableEq, Repr

/-- Entry is a single path/fs.DirEntry pair yielded by a Ranger
(`entry.go`). `DirEntry = none` models a nil `fs.DirEntry`. `useFilepath`
records whether the Ranger walks the OS filesystem (package `filepath`)
or an `fs.FS` (package `path`). -/
structure Entry where
  Path : String
  DirEntry : Option DirEntryInfo
  useFilepath : Bool
deriving DecidableEq, Repr

/-- Models `Entry.IsDir`: false when `DirEntry` is nil. -/
def Entry.IsDir (e : Entry) : Bool :=
  match e.DirEntry with
  | none => false
  | some d => d.isDir

/-- Models `Entry.Base`: the last element of `Path`. -/
def Entry.Base (e : Entry) : String :=
  if e.useFilepath then filepathBase e.Path else pathBase e.Path

/-- Models `Entry.Ext`: the file name extension of `Path`. -/
def Entry.Ext (e : Entry) : String :=
  if e.useFilepath then filepathExt e.Path else pathExt e.Path

/-- FilterFunc is a function type used to filter files and directories
during the walk (`filters.go`). -/
def FilterFunc : Type := Entry → Bool

/-- Models `MatchExtension`: lower-cases the provided extensions once, then
matches when the lower-cased `Entry.Ext` equals one of them. -/
def MatchExtension (extensions : List String) : FilterFunc :=
  let lowered := extensions.map goToLower
  fun e => lowered.contains (goToLower e.Ext)

/-- Models `MatchPrefixPath`: matches paths starting with the given
string. -/
def MatchPrefixPath (pre : String) : FilterFunc :=
  fun e => goHasPrefix e.Path pre

/-- Models `MatchPrefixName` exactly as written in `filters.go`: despite its
documentation speaking of `Entry.Name()`, the body tests
`strings.HasPrefix(e.Path, prefix)`. -/
def MatchPrefixName (pre : String) : FilterFunc :=
  fun e => goHasPrefix e.Path pre

/-- Models `MatchDotFile`, defined in the source as
`MatchPrefixName(".")`. -/
def MatchDotFile : FilterFunc := MatchPrefixName "."

/-- Models `And`: all filters hold (vacuously true for the empty list). -/
def And (filters : List FilterFunc) : FilterFunc :=
  fun e => filters.all (fun f => f e)

/-- Models `Or`: at least one filter holds (vacuously false for the empty
list). -/
def Or (filters : List FilterFunc) : FilterFunc :=
  fun e => filters.any (fun f => f e)

/-- Models `Not`: inverts a FilterFunc. -/
def Not (f : FilterFunc) : FilterFunc :=
  fun e => !(f e)

/-- Models `includeAll`, the default include filter. -/
def includeAll : FilterFunc := fun _ => true

/-- Models `excludeNone`, the default exclude filter. -/
def excludeNone : FilterFunc := fun _ => false

/-- ErrorPolicy (`errorpolicy.go`): decides per traversal error whether to
continue (`true`) or halt (`false`), given the error and the current
Entry. The engine logs each invocation, so the stateful `OnErrorCollect`
policy is modelled by its pure decision together with the invocation log
(it appends exactly the error of each invocation, in order). -/
def ErrorPolicy : Type := GoErr → Entry → Bool

/-- Models `OnErrorIgnore`: always continues. -/
def OnErrorIgnore : ErrorPolicy := fun _ _ => true

/-- Models `OnErrorHalt`: halts on any error. -/
def OnErrorHalt : ErrorPolicy := fun _ _ => false

/-- Models the decision component of `OnErrorCollect`: always continues;
the collected slice is recovered from the invocation log via
`collectedErrors`. -/
def OnErrorCollectDecision : ErrorPolicy := fun _ _ => true

/-- Models `OnErrPermissionIgnore`: continues exactly when
`errors.Is(err, fs.ErrPermission)`. -/
def OnErrPermissionIgnore : ErrorPolicy :=
  fun er _ => er == GoErr.permissionDenied

/-- Ranger (`ranger.go`) configuration: root path, which path package the
Entries use (`useFilepath` is `fsys == nil` in Go), the four filters and
the error policy. The per-walk mutable fields live in `WalkState`. -/
structure Ranger where
  root : String
  useFilepath : Bool
  includeFiles : FilterFunc
  excludeFiles : FilterFunc
  includeDirs : FilterFunc
  excludeDirs : FilterFunc
  erp : ErrorPolicy

/-- Models `New`: the default Ranger includes all files and directories. -/
def Ranger.New (useFilepath : Bool) (root : String) (erp : ErrorPolicy) : Ranger :=
  { root := root
    useFilepath := useFilepath
    includeFiles := includeAll
    excludeFiles := excludeNone
    includeDirs := includeAll
    excludeDirs := excludeNone
    erp := erp }

/-- Disposition returned by the `walkDir` callback to the depth-first
driver: `continueD` models a nil error, `skipDirD` models `fs.SkipDir`,
`skipAllD` models `fs.SkipAll`. -/
inductive Disposition where
  | continueD : Disposition
  | skipDirD : Disposition
  | skipAllD : Disposition
deriving DecidableEq, Repr

/-- Result of walking one node or forest inside the `fs.WalkDir` model:
the error value the recursive `walkDir` returns to its caller (`okR` is
nil). -/
inductive WalkRes where
  | okR : WalkRes
  | skipDirR : WalkRes
  | skipAllR : WalkRes
deriving DecidableEq, Repr

/-- Mutable state of one `Ranger.Walk` run, together with the observation
logs the claims are about: `offered` are the Entries yielded to the
consumer, `invoked` the ErrorPolicy invocations in order, `visited` the
paths of all low-level callback invocations (the namespace I/O trace), and
`budget` models a consumer that stops consuming after that many elements
(`none` consumes everything). -/
structure WalkState where
  skipDir : Bool
  lastErr : Option GoErr
  offered : List Entry
  invoked : List (GoErr × Entry)
  visited : List String
  budget : Option Nat

/-- Initial state of a walk. -/
def initState (budget : Option Nat) : WalkState :=
  { skipDir := false, lastErr := none, offered := [], invoked := [],
    visited := [], budget := budget }

/-- Models the consumer of the `Walk` sequence receiving Entry `e`:
it records the Entry, optionally calls `Ranger.SkipDir` (when `pr e`),
spends one unit of budget, and reports whether it keeps consuming. -/
def offerEntry (pr : Entry → Bool) (e : Entry) (s : WalkState) : WalkState × Bool :=
  match s.budget with
  | none =>
    ({ s with offered := s.offered ++ [e], skipDir := s.skipDir || pr e }, true)
  | some 0 => (s, false)
  | some (n + 1) =>
    ({ s with offered := s.offered ++ [e], skipDir := s.skipDir || pr e,
              budget := some n }, decide (0 < n))

/-- Models the body of the `for e := range tr.walk` loop in `Ranger.Walk`
(ranger.go lines 48-67), acting as the `yield` of the low-level walk:
handles the error policy, the directory filters (with `SkipDir` on
excluded directories), the file filters, and finally the consumer.
Returns the updated state and the value `yield(e)` evaluates to. -/
def yieldStep (tr : Ranger) (pr : Entry → Bool) (e : Entry) (err : Option GoErr)
    (s : WalkState) : WalkState × Bool :=
  match err with
  | some er =>
    ({ s with invoked := s.invoked ++ [(er, e)] }, tr.erp er e)
  | none =>
    if tr.excludeDirs e || !tr.includeDirs e then
      (if e.IsDir then { s with skipDir := true } else s, true)
    else if tr.excludeFiles e || !tr.includeFiles e then
      (s, true)
    else
      offerEntry pr e s

/-- Tail of the `walkDir` closure in `Ranger.walk` (ranger.go lines 85-94),
after the yield: `return fs.SkipAll` when the yield stopped, otherwise
clear a requested prune flag and `return fs.SkipDir` unless the current
path is the root. -/
def walkEpilogue (root path : String) (step : WalkState × Bool) :
    WalkState × Disposition :=
  if !step.2 then (step.1, Disposition.skipAllD)
  else if step.1.skipDir then
    ({ step.1 with skipDir := false },
     if path == root then Disposition.continueD else Disposition.skipDirD)
  else (step.1, Disposition.continueD)

/-- Models the `walkDir` closure in `Ranger.walk` (ranger.go lines 83-95):
stores path, DirEntry and error into the current Entry and `lastErr`,
yields to the `Walk` loop, and translates the outcome into a disposition
for the depth-first driver via `walkEpilogue`. The `visited` log records
the callback invocation. -/
def walkDirCallback (tr : Ranger) (pr : Entry → Bool) (s : WalkState)
    (path : String) (d : Option DirEntryInfo) (err : Option GoErr) :
    WalkState × Disposition :=
  let e : Entry := ⟨path, d, tr.useFilepath⟩
  let s0 := { s with lastErr := err, visited := s.visited ++ [path] }
  walkEpilogue tr.root path (yieldStep tr pr e err s0)

/-- File-namespace tree fed to the `fs.WalkDir` model. A node is a `file`,
or a `dir` with an optional ReadDir error (a failing directory yields the
second error callback and exposes no children) and a forest of children;
forests are written with `fnil` / `fcons` so that the interpreter is a
plain structural recursion. Children are listed in the provider's
enumeration order. -/
inductive FsTree where
  | file : String → FsTree
  | dir : String → Option GoErr → FsTree → FsTree
  | fnil : FsTree
  | fcons : FsTree → FsTree → FsTree
deriving DecidableEq, Repr

/-- Name of a node (used to build the child path, like `path.Join` in the
driver); forests have no name. -/
def FsTree.nodeName : FsTree → String
  | .file n => n
  | .dir n _ _ => n
  | .fnil => ""
  | .fcons _ _ => ""

/-- Models `path.Join(base, name)` for the clean, relative paths the walk
produces: joining onto `"."` drops the dot. -/
def joinPath (base name : String) : String :=
  if base == "." then name else base ++ "/" ++ name

/-- Models the recursive `walkDir` of `fs.WalkDir` driving the Ranger's
callback. On a node form (`file`/`dir`) the second argument is the node's
full path; on a forest form it is the parent directory's path. Per the
documented `fs.WalkDir` contract: `SkipDir` returned while visiting a
directory skips its children; returned while visiting a file it propagates
to the parent loop which stops walking the remaining siblings; `SkipAll`
aborts the entire walk. A directory whose ReadDir fails produces a second
callback carrying the error, after which no children are walked. -/
def walkT (tr : Ranger) (pr : Entry → Bool) :
    FsTree → String → WalkState → WalkState × WalkRes
  | .file _, path, s =>
    let r := walkDirCallback tr pr s path (some ⟨false⟩) none
    match r.2 with
    | .skipAllD => (r.1, .skipAllR)
    | .skipDirD => (r.1, .skipDirR)
    | .continueD => (r.1, .okR)
  | .dir _ readErr kids, path, s =>
    let r := walkDirCallback tr pr s path (some ⟨true⟩) none
    match r.2 with
    | .skipAllD => (r.1, .skipAllR)
    | .skipDirD => (r.1, .okR)
    | .continueD =>
      match readErr with
      | some er =>
        let r2 := walkDirCallback tr pr r.1 path (some ⟨true⟩) (some er)
        match r2.2 with
        | .skipAllD => (r2.1, .skipAllR)
        | _ => (r2.1, .okR)
      | none => walkT tr pr kids path r.1
  | .fnil, _, s => (s, .okR)
  | .fcons n rest, base, s =>
    let r := walkT tr pr n (joinPath base n.nodeName) s
    match r.2 with
    | .skipAllR => (r.1, .skipAllR)
    | .skipDirR => (r.1, .okR)
    | .okR => walkT tr pr rest base r.1

/-- Models one full `Ranger.Walk` run over the given tree rooted at
`tr.root`: `fs.WalkDir(fsys, tr.root, walkDir)` with the walk's result
error discarded, returning the final state. -/
def Ranger.runWalk (tr : Ranger) (pr : Entry → Bool) (budget : Option Nat)
    (tree : FsTree) : WalkState :=
  (walkT tr pr tree tr.root (initState budget)).1

/-- Paths of the Entries offered to the consumer, in order. -/
def offeredPaths (s : WalkState) : List String := s.offered.map Entry.Path

/-- Models the `Files`/`FilePaths` projection over a fully consumed walk:
directory entries are dropped after the fact, order preserved. -/
def filePathsOf (s : WalkState) : List String :=
  (s.offered.filter (fun e => !e.IsDir)).map Entry.Path

/-- Errors collected by `OnErrorCollect`: it appends exactly the error of
each invocation, in encounter order. -/
def collectedErrors (s : WalkState) : List GoErr := s.invoked.map Prod.fst

/-- Models `Ranger.Paths` (ranger.go lines 146-155): it takes an
ErrorPolicy argument, which the body never uses, and yields `e.Path` for
each Entry of `Walk`. -/
def Ranger.Paths (tr : Ranger) (erpArg : ErrorPolicy) (pr : Entry → Bool)
    (budget : Option Nat) (tree : FsTree) : List String :=
  offeredPaths (tr.runWalk pr budget tree)

/-- Lower-case ASCII letters (proof helper). -/
def asciiLowers : List Char :=
  ['a','b','c','d','e','f','g','h','i','j','k','l','m',
   'n','o','p','q','r','s','t','u','v','w','x','y','z']

/-- Scenario for the root-exclusion special case: a root directory with two
plain files, and a Ranger whose directory filter excludes the root path. -/
def c2Tree : FsTree :=
  .dir "." none (.fcons (.file "a.txt") (.fcons (.file "b.txt") .fnil))

/-- Ranger whose `excludeDirs` matches the root itself. -/
def c2Ranger : Ranger :=
  { Ranger.New false "." OnErrorHalt with excludeDirs := fun e => e.Path == "." }

/-- Scenario for directory filters hitting a plain file: the tree has one
file, and the Ranger's `excludeDirs` matches that file's path while the
file filters are the defaults (include everything). -/
def c1Tree : FsTree := .dir "." none (.fcons (.file "a.txt") .fnil)

/-- Ranger whose `excludeDirs` matches the path of a plain file. -/
def c1Ranger : Ranger :=
  { Ranger.New false "." OnErrorHalt with excludeDirs := fun e => e.Path == "a.txt" }

/-- Scenario for pruning at a non-container node: directory `d` holds two
files; a file `z.txt` follows `d` among the root's children. -/
def c3Tree : FsTree :=
  .dir "." none
    (.fcons (.dir "d" none (.fcons (.file "a.txt") (.fcons (.file "b.txt") .fnil)))
      (.fcons (.file "z.txt") .fnil))

/-- Default Ranger over `c3Tree`. -/
def c3Ranger : Ranger := Ranger.New false "." OnErrorHalt

/-- Scenario of spec section 8: one unreadable subdirectory (`1`, ReadDir
fails with a permission error; it contains a file that therefore is never
reached) and one readable file (`2.txt`) outside it, in the provider's
enumeration order. -/
def permTree : FsTree :=
  .dir "." none
    (.fcons (.dir "1" (some .permissionDenied) (.fcons (.file "a.txt") .fnil))
      (.fcons (.file "2.txt") .fnil))

/-- The seven-file namespace of the repository's tests, in enumeration
order. -/
def c6Tree : FsTree :=
  .dir "." none (.fcons (.file "a.txt")
    (.fcons (.dir "dir1" none (.fcons (.file "file3.txt") (.fcons (.file "file4.log") .fnil)))
    (.fcons (.dir "dir2" none (.fcons (.file "file5.txt")
      (.fcons (.dir "subdir" none (.fcons (.file "file6.go") .fnil)) .fnil)))
    (.fcons (.file "file1.txt") (.fcons (.file "file2.log") .fnil)))))

theorem walkEpilogue_invoked (root path : String) (st : WalkState × Bool) :
    (walkEpilogue root path st).1.invoked = st.1.invoked := by
  rcases st with ⟨t, b⟩
  cases b <;> cases hsd : t.skipDir <;> simp [walkEpilogue, hsd]

theorem walkEpilogue_offered (root path : String) (st : WalkState × Bool) :
    (walkEpilogue root path st).1.offered = st.1.offered := by
  rcases st with ⟨t, b⟩
  cases b <;> cases hsd : t.skipDir <;> simp [walkEpilogue, hsd]

theorem walkEpilogue_skipAll_iff (root path : String) (st : WalkState × Bool) :
    ((walkEpilogue root path st).2 = Disposition.skipAllD ↔ st.2 = false) := by
  rcases st with ⟨t, b⟩
  cases b <;> cases hsd : t.skipDir <;> simp [walkEpilogue, hsd]
  split <;> simp

theorem walkEpilogue_root_no_skipDir (root : String) (st : WalkState × Bool) :
    (walkEpilogue root root st).2 ≠ Disposition.skipDirD := by
  rcases st with ⟨t, b⟩
  cases b <;> cases hsd : t.skipDir <;> simp [walkEpilogue, hsd]

theorem walkEpilogue_flag_cleared (root path : String) (st : WalkState × Bool) :
    (walkEpilogue root path st).2 ≠ Disposition.skipAllD →
    (walkEpilogue root path st).1.skipDir = false := by
  rcases st with ⟨t, b⟩
  cases b <;> cases hsd : t.skipDir <;> simp [walkEpilogue, hsd]

theorem walkEpilogue_skipDir_iff (root path : String) (st : WalkState × Bool) :
    st.2 = true →
    ((walkEpilogue root path st).2 = Disposition.skipDirD ↔
      (st.1.skipDir = true ∧ (path == root) = false)) := by
  rcases st with ⟨t, b⟩
  intro hb
  cases b
  · exact absurd hb (by simp)
  · cases hsd : t.skipDir <;> cases hr : path == root <;> simp [walkEpilogue, hsd, hr]

theorem yieldStep_none_invoked (tr : Ranger) (pr : Entry → Bool) (e : Entry)
    (s : WalkState) : (yieldStep tr pr e none s).1.invoked = s.invoked := by
  simp only [yieldStep, offerEntry]
  split
  · split <;> rfl
  · split
    · rfl
    · split <;> rfl

theorem asciiLowerChar_cases (c : Char) :
    asciiLowerChar c = c ∨ asciiLowerChar c ∈ asciiLowers := by
  unfold asciiLowerChar
  split
  case h_27 => exact Or.inl rfl
  all_goals exact Or.inr (by decide)

theorem asciiLowerChar_idem (c : Char) :
    asciiLowerChar (asciiLowerChar c) = asciiLowerChar c := by
  rcases asciiLowerChar_cases c with h | h
  · rw [h]; exact h
  · have hfix : ∀ d ∈ asciiLowers, asciiLowerChar d = d := by decide
    exact hfix _ h

theorem asciiLowerChar_slash (c : Char) :
    (asciiLowerChar c = '/') ↔ (c = '/') := by
  rcases asciiLowerChar_cases c with h | h
  · rw [h]
  · constructor
    · intro hs; rw [hs] at h; exact absurd h (by decide)
    · intro hs; subst hs; exact absurd h (by decide)

theorem asciiLowerChar_dot (c : Char) :
    (asciiLowerChar c = '.') ↔ (c = '.') := by
  rcases asciiLowerChar_cases c with h | h
  · rw [h]
  · constructor
    · intro hs; rw [hs] at h; exact absurd h (by decide)
    · intro hs; subst hs; exact absurd h (by decide)

theorem pathExtAux_map (l acc : List Char) :
    pathExtAux (l.map asciiLowerChar) (acc.map asciiLowerChar)
      = (pathExtAux l acc).map asciiLowerChar := by
  induction l generalizing acc with
  | nil => simp [pathExtAux]
  | cons c rest ih =>
    simp only [List.map_cons, pathExtAux, asciiLowerChar_slash, asciiLowerChar_dot]
    by_cases h1 : c = '/'
    · simp [h1]
    · by_cases h2 : c = '.'
      · simp [h1, h2]
      · simpa [h1, h2] using ih (c :: acc)

theorem pathExt_goToLower (p : String) :
    pathExt (goToLower p) = goToLower (pathExt p) := by
  have h0 : (List.map asciiLowerChar p.data).reverse
      = p.data.reverse.map asciiLowerChar := (List.map_reverse _ _).symm
  show String.mk (pathExtAux (List.map asciiLowerChar p.data).reverse [])
      = String.mk ((pathExtAux p.data.reverse []).map asciiLowerChar)
  rw [h0]
  exact congrArg String.mk (pathExtAux_map p.data.reverse [])

theorem goToLower_idem (s : String) : goToLower (goToLower s) = goToLower s := by
  unfold goToLower
  simp only [List.map_map]
  congr 1
  exact List.map_congr_left (fun c _ => asciiLowerChar_idem c)

theorem mapLower_idem (l : List String) :
    (l.map goToLower).map goToLower = l.map goToLower := by
  rw [List.map_map]
  exact List.map_congr_left (fun s _ => goToLower_idem s)

theorem Entry_Ext_eq (p : String) (d : Option DirEntryInfo) (uf : Bool) :
    Entry.Ext ⟨p, d, uf⟩ = pathExt p := by
  unfold Entry.Ext filepathExt
  exact ite_self _

/-- C1 counterexample: in `Ranger.Walk` the directory-filter test is
applied to every node, not only to containers. The file `a.txt` passes the
default file filters (exclude-none, include-all) yet is visited and not
offered, because it is excluded by the Ranger's `excludeDirs` filter. The
claim says file filters alone decide non-container nodes, so it would
require `a.txt` to be offered. -/
theorem dirFilter_hits_file_counterexample :
    (c1Ranger.runWalk (fun _ => false) none c1Tree).visited = [".", "a.txt"] ∧
    offeredPaths (c1Ranger.runWalk (fun _ => false) none c1Tree) = ["."] ∧
    c1Ranger.excludeFiles ⟨"a.txt", some ⟨false⟩, false⟩ = false ∧
    c1Ranger.includeFiles ⟨"a.txt", some ⟨false⟩, false⟩ = true := by
  decide

/-- C1 (amended): within one traversal step with no error, the
directory-exclusion test (exclude-dirs OR NOT include-dirs) screens every
node, container or not: a node failing it is skipped without being
offered, and only then do the file filters decide the rest. Pruning
(`fs.SkipDir`) is requested exactly when the node excluded by the
directory filters is a container other than the root. Stated for a
consumer that consumes everything and requests no prune. -/
theorem dir_filters_screen_every_node (tr : Ranger) (s : WalkState)
    (path : String) (d : Option DirEntryInfo)
    (hb : s.budget = none) (hsd : s.skipDir = false) :
    ((walkDirCallback tr (fun _ => false) s path d none).1.offered =
      (if (tr.excludeDirs ⟨path, d, tr.useFilepath⟩
            || !tr.includeDirs ⟨path, d, tr.useFilepath⟩)
          || (tr.excludeFiles ⟨path, d, tr.useFilepath⟩
            || !tr.includeFiles ⟨path, d, tr.useFilepath⟩)
       then s.offered
       else s.offered ++ [⟨path, d, tr.useFilepath⟩])) ∧
    ((walkDirCallback tr (fun _ => false) s path d none).2 = Disposition.skipDirD ↔
      ((tr.excludeDirs ⟨path, d, tr.useFilepath⟩
          || !tr.includeDirs ⟨path, d, tr.useFilepath⟩) = true
        ∧ Entry.IsDir ⟨path, d, tr.useFilepath⟩ = true
        ∧ (path == tr.root) = false)) := by
  have hcb : walkDirCallback tr (fun _ => false) s path d none
      = walkEpilogue tr.root path (yieldStep tr (fun _ => false)
          ⟨path, d, tr.useFilepath⟩ none
          { s with lastErr := none, visited := s.visited ++ [path] }) := rfl
  rw [hcb]
  simp only [yieldStep, offerEntry, hb, hsd]
  cases hdir : (tr.excludeDirs ⟨path, d, tr.useFilepath⟩
      || !tr.includeDirs ⟨path, d, tr.useFilepath⟩)
  · cases hfile : (tr.excludeFiles ⟨path, d, tr.useFilepath⟩
        || !tr.includeFiles ⟨path, d, tr.useFilepath⟩)
    · constructor
      · rw [walkEpilogue_offered]; simp
      · rw [walkEpilogue_skipDir_iff _ _ _ rfl]; simp [hsd]
    · constructor
      · rw [walkEpilogue_offered]; simp
      · rw [walkEpilogue_skipDir_iff _ _ _ rfl]; simp [hsd]
  · cases hisd : Entry.IsDir ⟨path, d, tr.useFilepath⟩
    · constructor
      · rw [walkEpilogue_offered]; simp [hisd]
      · rw [walkEpilogue_skipDir_iff _ _ _ (by simp [hisd])]; simp [hisd, hsd]
    · constructor
      · rw [walkEpilogue_offered]; simp [hisd]
      · rw [walkEpilogue_skipDir_iff _ _ _ (by simp [hisd])]; simp [hisd, hsd]

/-- C1 witness: the amended step characterization evaluated for the
default Ranger with `excludeDirs` matching `a.txt`, at the initial state
of a fully consuming walk visiting the file `a.txt`. -/
theorem dir_filters_screen_every_node_witness :
    ((walkDirCallback c1Ranger (fun _ => false) (initState none)
        "a.txt" (some ⟨false⟩) none).1.offered =
      (if (c1Ranger.excludeDirs ⟨"a.txt", some ⟨false⟩, c1Ranger.useFilepath⟩
            || !c1Ranger.includeDirs ⟨"a.txt", some ⟨false⟩, c1Ranger.useFilepath⟩)
          || (c1Ranger.excludeFiles ⟨"a.txt", some ⟨false⟩, c1Ranger.useFilepath⟩
            || !c1Ranger.includeFiles ⟨"a.txt", some ⟨false⟩, c1Ranger.useFilepath⟩)
       then (initState none).offered
       else (initState none).offered ++ [⟨"a.txt", some ⟨false⟩, c1Ranger.useFilepath⟩])) ∧
    ((walkDirCallback c1Ranger (fun _ => false) (initState none)
        "a.txt" (some ⟨false⟩) none).2 = Disposition.skipDirD ↔
      ((c1Ranger.excludeDirs ⟨"a.txt", some ⟨false⟩, c1Ranger.useFilepath⟩
          || !c1Ranger.includeDirs ⟨"a.txt", some ⟨false⟩, c1Ranger.useFilepath⟩) = true
        ∧ Entry.IsDir ⟨"a.txt", some ⟨false⟩, c1Ranger.useFilepath⟩ = true
        ∧ (("a.txt" : String) == c1Ranger.root) = false)) :=
  dir_filters_screen_every_node c1Ranger (initState none) "a.txt" (some ⟨false⟩) rfl rfl

/-- C2: the root is never pruned by directory filters: the walkDir
callback at the root path never returns the SkipDir disposition, whatever
the filters, the error and the prune flag; and concretely, a Ranger whose
`excludeDirs` excludes the root `.` still visits and offers the root's
children `a.txt` and `b.txt`. -/
theorem root_never_pruned :
    (∀ (tr : Ranger) (pr : Entry → Bool) (s : WalkState)
        (d : Option DirEntryInfo) (err : Option GoErr),
      (walkDirCallback tr pr s tr.root d err).2 ≠ Disposition.skipDirD) ∧
    offeredPaths (c2Ranger.runWalk (fun _ => false) none c2Tree) = ["a.txt", "b.txt"] := by
  constructor
  · intro tr pr s d err
    exact walkEpilogue_root_no_skipDir tr.root _
  · decide

/-- C3 counterexample: pruning requested by the consumer while the
non-container Entry `d/a.txt` is current is not a no-op: compared with the
same walk without pruning, the remaining sibling `d/b.txt` of the pruned
file disappears from the offered sequence (per the `fs.SkipDir` contract
it is skipped together with the rest of the containing directory). -/
theorem prune_on_file_counterexample :
    offeredPaths (c3Ranger.runWalk (fun _ => false) none c3Tree)
      = [".", "d", "d/a.txt", "d/b.txt", "z.txt"] ∧
    offeredPaths (c3Ranger.runWalk (fun e => e.Path == "d/a.txt") none c3Tree)
      = [".", "d", "d/a.txt", "z.txt"] := by
  decide

/-- C3 (amended): a prune requested at a non-container Entry is not a
no-op — it makes the callback return `fs.SkipDir`, which skips the
remaining entries of the containing directory (concrete second conjunct:
pruning at file `d/a.txt` drops its sibling `d/b.txt` but not the later
node `z.txt`). The prune flag is still sticky for that step only: whenever
the walk continues past a node, the flag has been reset, so a prune never
leaks into later subtrees (first conjunct). -/
theorem skipDir_sticky_one_step :
    (∀ (tr : Ranger) (pr : Entry → Bool) (s : WalkState) (path : String)
        (d : Option DirEntryInfo) (err : Option GoErr),
      (walkDirCallback tr pr s path d err).2 ≠ Disposition.skipAllD →
      (walkDirCallback tr pr s path d err).1.skipDir = false) ∧
    offeredPaths (c3Ranger.runWalk (fun e => e.Path == "d/a.txt") none c3Tree)
      = [".", "d", "d/a.txt", "z.txt"] := by
  constructor
  · intro tr pr s path d err
    exact walkEpilogue_flag_cleared tr.root path _
  · decide

/-- C3 witness: the flag-reset statement applied at a concrete continuing
step (default Ranger, file node, no error). -/
theorem skipDir_sticky_one_step_witness :
    (walkDirCallback c3Ranger (fun _ => false) (initState none)
        "x.txt" (some ⟨false⟩) none).2 ≠ Disposition.skipAllD ∧
    (walkDirCallback c3Ranger (fun _ => false) (initState none)
        "x.txt" (some ⟨false⟩) none).1.skipDir = false :=
  ⟨by decide, skipDir_sticky_one_step.1 c3Ranger (fun _ => false) (initState none)
      "x.txt" (some ⟨false⟩) none (by decide)⟩

/-- C4: for every visited node whose visit produced an error, the
ErrorPolicy is invoked exactly once with that error and the node's
best-effort Entry (path populated), the node is not offered, and the walk
aborts (`fs.SkipAll`) iff the policy returned halt; for a successfully
visited node the policy is never invoked. -/
theorem errorPolicy_exactly_once_per_error (tr : Ranger) (pr : Entry → Bool)
    (s : WalkState) (path : String) (d : Option DirEntryInfo) (er : GoErr) :
    ((walkDirCallback tr pr s path d (some er)).1.invoked
        = s.invoked ++ [(er, ⟨path, d, tr.useFilepath⟩)]) ∧
    ((walkDirCallback tr pr s path d (some er)).1.offered = s.offered) ∧
    ((walkDirCallback tr pr s path d (some er)).2 = Disposition.skipAllD
        ↔ tr.erp er ⟨path, d, tr.useFilepath⟩ = false) ∧
    ((walkDirCallback tr pr s path d none).1.invoked = s.invoked) := by
  refine ⟨?_, ?_, ?_, ?_⟩
  · rw [show walkDirCallback tr pr s path d (some er)
        = walkEpilogue tr.root path (yieldStep tr pr ⟨path, d, tr.useFilepath⟩ (some er)
            { s with lastErr := some er, visited := s.visited ++ [path] }) from rfl]
    rw [walkEpilogue_invoked]
    simp [yieldStep]
  · rw [show walkDirCallback tr pr s path d (some er)
        = walkEpilogue tr.root path (yieldStep tr pr ⟨path, d, tr.useFilepath⟩ (some er)
            { s with lastErr := some er, visited := s.visited ++ [path] }) from rfl]
    rw [walkEpilogue_offered]
    simp [yieldStep]
  · rw [show walkDirCallback tr pr s path d (some er)
        = walkEpilogue tr.root path (yieldStep tr pr ⟨path, d, tr.useFilepath⟩ (some er)
            { s with lastErr := some er, visited := s.visited ++ [path] }) from rfl]
    rw [walkEpilogue_skipAll_iff]
    simp [yieldStep]
  · rw [show walkDirCallback tr pr s path d none
        = walkEpilogue tr.root path (yieldStep tr pr ⟨path, d, tr.useFilepath⟩ none
            { s with lastErr := none, visited := s.visited ++ [path] }) from rfl]
    rw [walkEpilogue_invoked, yieldStep_none_invoked]

/-- C5: the spec's permission scenario (`permTree`: unreadable
subdirectory `1` before readable file `2.txt`): with `OnErrorHalt` the
file sequence is empty and the last error is the permission error; with
`OnErrPermissionIgnore` the file sequence is exactly `2.txt` and no error
is retrievable afterwards; with the collect policy the file sequence is
exactly `2.txt` and exactly one permission error is collected. -/
theorem errorPolicy_canonical_scenario :
    filePathsOf ((Ranger.New false "." OnErrorHalt).runWalk
        (fun _ => false) none permTree) = [] ∧
    ((Ranger.New false "." OnErrorHalt).runWalk
        (fun _ => false) none permTree).lastErr = some GoErr.permissionDenied ∧
    filePathsOf ((Ranger.New false "." OnErrPermissionIgnore).runWalk
        (fun _ => false) none permTree) = ["2.txt"] ∧
    ((Ranger.New false "." OnErrPermissionIgnore).runWalk
        (fun _ => false) none permTree).lastErr = none ∧
    filePathsOf ((Ranger.New false "." OnErrorCollectDecision).runWalk
        (fun _ => false) none permTree) = ["2.txt"] ∧
    collectedErrors ((Ranger.New false "." OnErrorCollectDecision).runWalk
        (fun _ => false) none permTree) = [GoErr.permissionDenied] := by
  decide

/-- C6: when the consumer stops, `fs.SkipAll` propagates: once a child's
walk returns the abort result, the remaining siblings are not walked at
all (first conjunct); concretely, a consumer taking 3 elements of the
seven-file tree makes the walk visit exactly the 3 nodes that produced
them — the visited-paths I/O trace equals the offered list and nothing
beyond `dir1` is ever visited. -/
theorem early_stop_aborts_walk :
    (∀ (tr : Ranger) (pr : Entry → Bool) (base : String) (n rest : FsTree)
        (s : WalkState),
      (walkT tr pr n (joinPath base n.nodeName) s).2 = WalkRes.skipAllR →
      walkT tr pr (FsTree.fcons n rest) base s
        = walkT tr pr n (joinPath base n.nodeName) s) ∧
    offeredPaths ((Ranger.New false "." OnErrorHalt).runWalk
        (fun _ => false) (some 3) c6Tree) = [".", "a.txt", "dir1"] ∧
    ((Ranger.New false "." OnErrorHalt).runWalk
        (fun _ => false) (some 3) c6Tree).visited = [".", "a.txt", "dir1"] := by
  refine ⟨?_, by decide, by decide⟩
  intro tr pr base n rest s h
  simp only [walkT, h]
  rw [← h]

/-- C6 witness: the abort-propagation statement applied where a
one-element consumer makes the walk of a single file return the abort
result. -/
theorem early_stop_aborts_walk_witness :
    (walkT (Ranger.New false "." OnErrorHalt) (fun _ => false) (FsTree.file "a")
        (joinPath "." (FsTree.file "a").nodeName) (initState (some 1))).2
      = WalkRes.skipAllR ∧
    walkT (Ranger.New false "." OnErrorHalt) (fun _ => false)
        (FsTree.fcons (FsTree.file "a") FsTree.fnil) "." (initState (some 1))
      = walkT (Ranger.New false "." OnErrorHalt) (fun _ => false) (FsTree.file "a")
        (joinPath "." (FsTree.file "a").nodeName) (initState (some 1)) :=
  ⟨by decide, early_stop_aborts_walk.1 (Ranger.New false "." OnErrorHalt)
      (fun _ => false) "." (FsTree.file "a") FsTree.fnil (initState (some 1)) (by decide)⟩

/-- C7: `And` of no filters matches every Entry, `Or` of no filters
matches none, and double `Not` is the identity on every Entry. -/
theorem filter_combinator_algebra (e : Entry) (f : FilterFunc) :
    And [] e = true ∧ Or [] e = false ∧ Not (Not f) e = f e := by
  refine ⟨rfl, rfl, ?_⟩
  simp [Not]

/-- C8 counterexample: a directory Entry can match `MatchExtension` — the
source has no `IsDir` check, so a directory named `dir.txt` matches the
`.txt` extension predicate. -/
theorem matchExtension_dir_counterexample :
    MatchExtension [".txt"] ⟨"dir.txt", some ⟨true⟩, false⟩ = true ∧
    Entry.IsDir ⟨"dir.txt", some ⟨true⟩, false⟩ = true := by
  decide

/-- C8 (amended): `MatchExtension` is case-insensitive — lower-casing the
provided extension set or the entry's path does not change the result —
but it ignores whether the Entry is a directory (the `DirEntry` component
is irrelevant), so directories whose names carry a matching extension do
match. -/
theorem matchExtension_case_insensitive (exts : List String) (p : String)
    (d d' : Option DirEntryInfo) (uf : Bool) :
    MatchExtension exts ⟨p, d, uf⟩ = MatchExtension (exts.map goToLower) ⟨p, d, uf⟩ ∧
    MatchExtension exts ⟨p, d, uf⟩ = MatchExtension exts ⟨goToLower p, d, uf⟩ ∧
    MatchExtension exts ⟨p, d, uf⟩ = MatchExtension exts ⟨p, d', uf⟩ := by
  refine ⟨?_, ?_, rfl⟩
  · show (exts.map goToLower).contains (goToLower (Entry.Ext ⟨p, d, uf⟩))
        = ((exts.map goToLower).map goToLower).contains (goToLower (Entry.Ext ⟨p, d, uf⟩))
    rw [mapLower_idem]
  · show (exts.map goToLower).contains (goToLower (Entry.Ext ⟨p, d, uf⟩))
        = (exts.map goToLower).contains (goToLower (Entry.Ext ⟨goToLower p, d, uf⟩))
    rw [Entry_Ext_eq, Entry_Ext_eq, pathExt_goToLower, goToLower_idem]

/-- C9: `MatchDotFile` as implemented tests whether the full path starts
with a dot, contradicting its own documentation (base-name semantics): the
dot-named file `dir/.hidden` inside a non-dot directory does not match
although its base name starts with a dot and is not `"."`, while the
plain-named file `.d/plain.txt` inside a dot directory does match although
its base name does not start with a dot. -/
theorem matchDotFile_path_semantics :
    MatchDotFile ⟨"dir/.hidden", some ⟨false⟩, false⟩ = false ∧
    goHasPrefix (Entry.Base ⟨"dir/.hidden", some ⟨false⟩, false⟩) "." = true ∧
    Entry.Base ⟨"dir/.hidden", some ⟨false⟩, false⟩ ≠ "." ∧
    MatchDotFile ⟨".d/plain.txt", some ⟨false⟩, false⟩ = true ∧
    goHasPrefix (Entry.Base ⟨".d/plain.txt", some ⟨false⟩, false⟩) "." = false := by
  decide

/-- C10: `Ranger.Paths` never reads its ErrorPolicy argument, so any two
policies passed to it produce identical path sequences; the result is
determined by the Ranger's own configuration alone. -/
theorem paths_policy_argument_unused (tr : Ranger) (p1 p2 : ErrorPolicy)
    (pr : Entry → Bool) (budget : Option Nat) (tree : FsTree) :
    tr.Paths p1 pr budget tree = tr.Paths p2 pr budget tree := rfl

end Walker
